import Mathlib

/-!
Verification of the TableHunter SQL-object extraction pipeline
(`TableHunter/TableHunter_Script.py`).

The text is modelled as `List Char`.  The Python `re` scanning used by
`extract_objects` and `extract_stored_procedures` is embedded as a direct
left-to-right scanner: at every position of the text the alternatives of the
pattern are tried in their written order (with the regex word-boundary test
where the pattern has one); the first alternative that matches yields its
capture and scanning resumes after the matched span, exactly as
`re.findall` produces its non-overlapping match list.  Each alternative of
the source patterns is a keyword phrase, optional modifier words and a
greedy character-class capture, and is embedded with the regex's
backtracking order (optional groups try their branch first, together with
the rest of the alternative, and fall back to the empty branch).

Word characters (regex `\w` and the word-boundary test) are modelled as
ASCII alphanumerics and underscore, and case folding as ASCII case folding,
which is faithful for the ASCII keyword patterns of the source.
-/

/-- The character list of a string literal (texts are modelled as `List Char`). -/
def chars (s : String) : List Char := s.data

/-- Python regex `\s` whitespace class: space, tab, newline, carriage
return, vertical tab, form feed. -/
def isPySpace (c : Char) : Bool :=
  c = ' ' || c = '\t' || c = '\n' || c = '\r' || c = Char.ofNat 11 || c = Char.ofNat 12

/-- Python regex `\w` word character (ASCII): letters, digits, underscore. -/
def isWordChar (c : Char) : Bool :=
  ('a' ≤ c && c ≤ 'z') || ('A' ≤ c && c ≤ 'Z') || ('0' ≤ c && c ≤ '9') || c = '_'

/-- The character class `[a-z0-9_\.]` of the object pattern, under
`re.IGNORECASE` (so uppercase letters match as well). -/
def isIdentChar (c : Char) : Bool :=
  ('a' ≤ c && c ≤ 'z') || ('A' ≤ c && c ≤ 'Z') || ('0' ≤ c && c ≤ '9') || c = '_' || c = '.'

/-- The character class `[\w\.$]` of the stored-procedure patterns. -/
def isProcIdentChar (c : Char) : Bool :=
  isWordChar c || c = '.' || c = '$'

/-- Match a literal keyword case-insensitively (`re.IGNORECASE`); returns
the rest of the input after the keyword. -/
def litCI : List Char → List Char → Option (List Char)
  | [], s => some s
  | _ :: _, [] => none
  | k :: ks, c :: cs => if c.toLower = k then litCI ks cs else none

/-- Regex `\s+`: at least one whitespace character, matched greedily. -/
def spaces1 : List Char → Option (List Char)
  | [] => none
  | c :: cs => if isPySpace c then some (cs.dropWhile isPySpace) else none

/-- A greedy nonempty character-class capture: `(cls)+`.  Returns the
captured token and the rest of the input. -/
def identCap (cls : Char → Bool) (s : List Char) : Option (List Char × List Char) :=
  match s.takeWhile cls with
  | [] => none
  | c :: cs => some (c :: cs, s.dropWhile cls)

/-- A keyword followed by `\s+`. -/
def kwsp (kw : String) (s : List Char) : Option (List Char) :=
  (litCI kw.data s).bind spaces1

/-- The capture `([a-z0-9_\.]+)` of the object pattern. -/
def idTok : List Char → Option (List Char × List Char) := identCap isIdentChar

/-- Regex `(?:transient\s+|temporary\s+)?([a-z0-9_\.]+)` with the regex's
backtracking order: a modifier branch is kept only if the capture after it
succeeds, otherwise the group matches empty. -/
def ttIdTok (s : List Char) : Option (List Char × List Char) :=
  ((kwsp "transient" s).bind idTok) <|> ((kwsp "temporary" s).bind idTok) <|> idTok s

/-- Alternative `\bfrom\s+([a-z0-9_\.]+)` (the boundary test is done by the scanner). -/
def altFrom (s : List Char) : Option (List Char × List Char) :=
  (kwsp "from" s).bind idTok

/-- Alternative `\bjoin\s+([a-z0-9_\.]+)`. -/
def altJoin (s : List Char) : Option (List Char × List Char) :=
  (kwsp "join" s).bind idTok

/-- Alternative `\bupdate\s+([a-z0-9_\.]+)`. -/
def altUpdate (s : List Char) : Option (List Char × List Char) :=
  (kwsp "update" s).bind idTok

/-- Alternative `\binsert\s+into\s+(?:transient\s+|temporary\s+)?([a-z0-9_\.]+)`. -/
def altInsertInto (s : List Char) : Option (List Char × List Char) :=
  (kwsp "insert" s).bind fun s1 => (kwsp "into" s1).bind ttIdTok

/-- Alternative `\bmerge\s+into\s+(?:transient\s+|temporary\s+)?([a-z0-9_\.]+)`. -/
def altMergeInto (s : List Char) : Option (List Char × List Char) :=
  (kwsp "merge" s).bind fun s1 => (kwsp "into" s1).bind ttIdTok

/-- Alternative `\bdelete\s+from\s+([a-z0-9_\.]+)`. -/
def altDeleteFrom (s : List Char) : Option (List Char × List Char) :=
  (kwsp "delete" s).bind fun s1 => (kwsp "from" s1).bind idTok

/-- Alternative `\btruncate\s+table\s+(?:transient\s+|temporary\s+)?([a-z0-9_\.]+)`. -/
def altTruncateTable (s : List Char) : Option (List Char × List Char) :=
  (kwsp "truncate" s).bind fun s1 => (kwsp "table" s1).bind ttIdTok

/-- Alternative `\balter\s+table\s+(?:transient\s+|temporary\s+)?([a-z0-9_\.]+)`. -/
def altAlterTable (s : List Char) : Option (List Char × List Char) :=
  (kwsp "alter" s).bind fun s1 => (kwsp "table" s1).bind ttIdTok

/-- The tail `table\s+([a-z0-9_\.]+)` of the create-table alternative. -/
def tableTok (s : List Char) : Option (List Char × List Char) :=
  (kwsp "table" s).bind idTok

/-- Regex `(?:transient\s+|temporary\s+)?table\s+([a-z0-9_\.]+)` with the
regex's backtracking order. -/
def ttTableTok (s : List Char) : Option (List Char × List Char) :=
  ((kwsp "transient" s).bind tableTok) <|> ((kwsp "temporary" s).bind tableTok) <|> tableTok s

/-- Regex `(?:or\s+replace\s+)?` followed by a continuation, with the
regex's backtracking order. -/
def orReplaceThen (next : List Char → Option (List Char × List Char)) (s : List Char) :
    Option (List Char × List Char) :=
  ((kwsp "or" s).bind fun s1 => (kwsp "replace" s1).bind next) <|> next s

/-- Alternative
`\bcreate\s+(?:or\s+replace\s+)?(?:transient\s+|temporary\s+)?table\s+([a-z0-9_\.]+)`. -/
def altCreateTable (s : List Char) : Option (List Char × List Char) :=
  (kwsp "create" s).bind (orReplaceThen ttTableTok)

/-- The tail `view\s+([a-z0-9_\.]+)` of the create-view alternative. -/
def viewTok (s : List Char) : Option (List Char × List Char) :=
  (kwsp "view" s).bind idTok

/-- Alternative `\bcreate\s+(?:or\s+replace\s+)?view\s+([a-z0-9_\.]+)`. -/
def altCreateView (s : List Char) : Option (List Char × List Char) :=
  (kwsp "create" s).bind (orReplaceThen viewTok)

/-- Alternative `\bdrop\s+table\s+(?:transient\s+|temporary\s+)?([a-z0-9_\.]+)`. -/
def altDropTable (s : List Char) : Option (List Char × List Char) :=
  (kwsp "drop" s).bind fun s1 => (kwsp "table" s1).bind ttIdTok

/-- The eleven alternatives of the object pattern of `extract_objects`, in
the order they are written in the source pattern (regex alternation tries
them in this order at each position). -/
def tryAlts (s : List Char) : Option (List Char × List Char) :=
  altFrom s <|> altJoin s <|> altUpdate s <|> altInsertInto s <|> altMergeInto s <|>
    altDeleteFrom s <|> altTruncateTable s <|> altAlterTable s <|> altCreateTable s <|>
      altCreateView s <|> altDropTable s

/-- The `re.findall` scan: at each position (subject to the word-boundary
test when the pattern starts with `\b`, i.e. when `useB` is set) the
alternatives are tried in order; a match contributes its capture and
scanning resumes after the matched span (every alternative ends with its
capture, so the character before the resume position is the capture's last
character); otherwise scanning advances one character.  The fuel is the
length of the text, which suffices since every match consumes at least one
character. -/
def scanAux (alts : List Char → Option (List Char × List Char)) (useB : Bool) :
    Nat → Option Char → List Char → List (List Char)
  | 0, _, _ => []
  | _ + 1, _, [] => []
  | fuel + 1, prev, c :: rest =>
    let boundaryOk : Bool :=
      !useB || (match prev with
                | none => true
                | some p => !isWordChar p)
    if boundaryOk then
      match alts (c :: rest) with
      | some (cap, r) => cap :: scanAux alts useB fuel cap.getLast? r
      | none => scanAux alts useB fuel (some c) rest
    else scanAux alts useB fuel (some c) rest

/-- The capture list `re.findall(pattern, sql_text, re.IGNORECASE | re.VERBOSE)`
of `extract_objects` (one capture per match; the unmatched groups of each
tuple are the empty strings the source loop skips with `if obj:`). -/
def objectMatches (sql_text : List Char) : List (List Char) :=
  scanAux tryAlts true sql_text.length none sql_text

/-- Python `str.strip()`: drop whitespace from both ends. -/
def pyStrip (l : List Char) : List Char :=
  ((l.dropWhile isPySpace).reverse.dropWhile isPySpace).reverse

/-- The cleanup `obj.strip().replace(";", "").upper()` applied to a capture. -/
def cleanToken (obj : List Char) : List Char :=
  ((pyStrip obj).filter (fun c => c != ';')).map Char.toUpper

/-- Python `token.split(".")[-1]`: the part after the last dot, or the whole
token when it has no dot. -/
def lastSeg (l : List Char) : List Char :=
  (l.reverse.takeWhile (fun c => c != '.')).reverse

/-- The module-level reserved-keyword set `BLOCK_KEYWORDS` of the source. -/
def BLOCK_KEYWORDS : List (List Char) :=
  [chars "IF", chars "EXISTS", chars "THEN", chars "ELSE", chars "END", chars "CASE",
    chars "WHEN", chars "ON", chars "USING", chars "VALUES",
    chars "SELECT", chars "WHERE", chars "GROUP", chars "ORDER", chars "HAVING", chars "BY",
    chars "AS",
    chars "AND", chars "OR", chars "NOT", chars "IN", chars "IS", chars "NULL", chars "LIKE",
    chars "SET",
    chars "BEGIN", chars "DECLARE", chars "RETURN", chars "LOOP", chars "FOR", chars "WHILE",
    chars "BETWEEN", chars "DISTINCT", chars "TOP", chars "LIMIT", chars "FETCH", chars "OVER",
    chars "PARTITION", chars "INNER", chars "LEFT", chars "RIGHT", chars "FULL", chars "OUTER",
    chars "CROSS",
    chars "UNION", chars "EXCEPT", chars "INTERSECT", chars "ALL", chars "WITH",
    chars "DESC", chars "ASC", chars "INTO"]

/-- The loop body of `extract_objects`: clean a capture and add it to the
set unless its final dot-segment is a reserved keyword. -/
def addCandidate (objects : Finset (List Char)) (obj : List Char) : Finset (List Char) :=
  if lastSeg (cleanToken obj) ∈ BLOCK_KEYWORDS then objects else insert (cleanToken obj) objects

/-- `extract_objects` of the source: the captures of the combined pattern,
cleaned, keyword-filtered and collected into a set. -/
def extract_objects (sql_text : List Char) : Finset (List Char) :=
  (objectMatches sql_text).foldl addCandidate ∅

/-- `remove_redundancy` of the source: keep every schema-qualified (dotted)
name, and keep a bare name only when no schema-qualified name has it as its
final dot-segment. -/
def remove_redundancy (objects : Finset (List Char)) : Finset (List Char) :=
  let schema_objs := objects.filter (fun obj => '.' ∈ obj)
  let noschema_objs := objects.filter (fun obj => '.' ∉ obj)
  schema_objs ∪ noschema_objs.filter (fun obj => ¬ ∃ so ∈ schema_objs, lastSeg so = obj)

/-- The catch-all category label `"OTHER Table/Views/SP's"` of the source
(the apostrophe is character 39). -/
def OTHER_LABEL : List Char :=
  chars "OTHER Table/Views/SP" ++ [Char.ofNat 39, 's']

/-- The category of one object in `categorize`: the first matching prefix of
the final dot-segment, in the fixed order of the source's if/elif chain. -/
def catOf (full_obj : List Char) : List Char :=
  let table_name := lastSeg full_obj
  if (chars "LP_").isPrefixOf table_name then chars "LP_OBJECTS"
  else if (chars "DDT_").isPrefixOf table_name then chars "DDT_OBJECTS"
  else if (chars "E_").isPrefixOf table_name then chars "E_OBJECTS"
  else if (chars "SA_").isPrefixOf table_name then chars "SA_OBJECTS"
  else if (chars "DW_").isPrefixOf table_name then chars "DW_OBJECTS"
  else OTHER_LABEL

/-- `categorize` of the source, as the map from a category label to the
objects placed under it (the source appends to per-label lists while
iterating a set, whose order is unspecified; the content of each category
is this set). -/
def categorize (objects : Finset (List Char)) (label : List Char) : Finset (List Char) :=
  objects.filter (fun full_obj => catOf full_obj = label)

/-- The capture `([\w\.$]+)` of the stored-procedure patterns. -/
def procIdTok : List Char → Option (List Char × List Char) := identCap isProcIdentChar

/-- The tail `procedure\s+([\w\.$]+)` of the create-procedure pattern. -/
def procTok (s : List Char) : Option (List Char × List Char) :=
  (kwsp "procedure" s).bind procIdTok

/-- The pattern `create\s+(or\s+replace\s+)?procedure\s+([\w\.$]+)` of
`extract_stored_procedures`.  Note it has no `\b` anchor before `create`
(the source loop keeps only the second group of each match). -/
def altCreateProcedure (s : List Char) : Option (List Char × List Char) :=
  (kwsp "create" s).bind (orReplaceThen procTok)

/-- The pattern `\b(?:exec|execute|call)\s+([\w\.$]+)` of
`extract_stored_procedures`; the branches are tried in the written order,
each together with the rest of the pattern. -/
def altCallProcedure (s : List Char) : Option (List Char × List Char) :=
  ((kwsp "exec" s).bind procIdTok) <|> ((kwsp "execute" s).bind procIdTok) <|>
    ((kwsp "call" s).bind procIdTok)

/-- The captures of `re.findall(create_pattern, sql_text, re.IGNORECASE)`:
the create-procedure pattern is scanned with no word-boundary anchor. -/
def createProcMatches (sql_text : List Char) : List (List Char) :=
  scanAux altCreateProcedure false sql_text.length none sql_text

/-- The captures of `re.findall(call_pattern, sql_text, re.IGNORECASE)`:
the invocation pattern is scanned with its `\b` word-boundary anchor. -/
def callProcMatches (sql_text : List Char) : List (List Char) :=
  scanAux altCallProcedure true sql_text.length none sql_text

/-- Lexicographic comparison of character lists by code point, the order
Python's `sorted` uses on strings. -/
def lexLeB : List Char → List Char → Bool
  | [], _ => true
  | _ :: _, [] => false
  | a :: as, b :: bs => if a = b then lexLeB as bs else decide (a < b)

/-- The ordering relation for the sorted procedure list. -/
def procLe (a b : List Char) : Prop := lexLeB a b = true

instance instDecProcLe : DecidableRel procLe :=
  fun a b => instDecidableEqBool (lexLeB a b) true

/-- `extract_stored_procedures` of the source: both capture lists are
upper-cased into one set (`dedup`) and returned sorted (`sorted(procedures)`). -/
def extract_stored_procedures (sql_text : List Char) : List (List Char) :=
  List.insertionSort procLe
    (((createProcMatches sql_text ++ callProcMatches sql_text).map
        (fun sp => sp.map Char.toUpper)).dedup)

/-- `clean_sql`, first substitution: the rest of the input after the first
`*/`, when there is one. -/
def afterBlockClose : List Char → Option (List Char)
  | [] => none
  | '*' :: '/' :: rest => some rest
  | _ :: rest => afterBlockClose rest

/-- `re.sub(r'/\*.*?\*/', '', sql_text, flags=re.DOTALL)`: every `/*` that
has a later `*/` is removed together with the (shortest) text up to and
including that `*/`; a `/*` with no later `*/` matches nothing and is kept,
as is everything after it (no later match can exist without a `*/`).  The
fuel is the length of the text. -/
def stripBlockAux : Nat → List Char → List Char
  | 0, s => s
  | _ + 1, [] => []
  | fuel + 1, '/' :: '*' :: rest =>
    match afterBlockClose rest with
    | some r => stripBlockAux fuel r
    | none => '/' :: '*' :: rest
  | fuel + 1, c :: rest => c :: stripBlockAux fuel rest

/-- The rest of a line: everything up to (excluding) the next newline is
dropped, matching regex `.*` without DOTALL. -/
def stripLineTail : List Char → List Char
  | [] => []
  | '\n' :: rest => '\n' :: rest
  | _ :: rest => stripLineTail rest

/-- `re.sub(r'--.*', '', sql_text)`: each `--` and the rest of its line are
removed.  The fuel is the length of the text. -/
def stripLineAux : Nat → List Char → List Char
  | 0, s => s
  | _ + 1, [] => []
  | fuel + 1, '-' :: '-' :: rest => stripLineAux fuel (stripLineTail rest)
  | fuel + 1, c :: rest => c :: stripLineAux fuel rest

/-- `clean_sql` of the source: strip block comments, then line comments,
then lower-case. -/
def clean_sql (sql_text : List Char) : List Char :=
  let noBlock := stripBlockAux sql_text.length sql_text
  let noLine := stripLineAux noBlock.length noBlock
  noLine.map Char.toLower

/-- The eleven pattern rules of the object extractor, as separate rules. -/
def ruleMatchers : List (List Char → Option (List Char × List Char)) :=
  [altFrom, altJoin, altUpdate, altInsertInto, altMergeInto, altDeleteFrom,
    altTruncateTable, altAlterTable, altCreateTable, altCreateView, altDropTable]

/-- Modelled from the spec's words, as the refinement target of the claim
that the eleven rules "match independently": each of the eleven pattern
rules is applied to the whole text by its own scan, the captures of all
rules are put together, and the same cleanup and reserved-keyword filter
produce the result set. -/
def extract_objects_rulewise (sql_text : List Char) : Finset (List Char) :=
  (ruleMatchers.foldl
      (fun caps alt => caps ++ scanAux alt true sql_text.length none sql_text) []).foldl
    addCandidate ∅

/-- The fold of `extract_objects` over any capture list is the accumulator
together with the set of cleaned captures that pass the keyword filter. -/
theorem foldl_addCandidate_eq (l : List (List Char)) (acc : Finset (List Char)) :
    l.foldl addCandidate acc =
      acc ∪ ((l.map cleanToken).filter
        (fun x => !(decide (lastSeg x ∈ BLOCK_KEYWORDS)))).toFinset := by
  induction l generalizing acc with
  | nil => simp
  | cons h t ih =>
    simp only [List.foldl_cons, List.map_cons, List.filter_cons]
    by_cases hb : lastSeg (cleanToken h) ∈ BLOCK_KEYWORDS
    · have ha : addCandidate acc h = acc := by
        simp only [addCandidate]
        rw [if_pos hb]
      rw [ha, ih]
      simp [hb]
    · have ha : addCandidate acc h = insert (cleanToken h) acc := by
        simp only [addCandidate]
        rw [if_neg hb]
      rw [ha, ih]
      simp [hb, Finset.insert_union, Finset.union_insert]

/-- Membership characterization of `remove_redundancy`: an object survives
iff it was present and is either schema-qualified or no schema-qualified
object has it as its final dot-segment. -/
theorem mem_remove_redundancy {S : Finset (List Char)} {x : List Char} :
    x ∈ remove_redundancy S ↔
      x ∈ S ∧ ('.' ∈ x ∨ ∀ y ∈ S, '.' ∈ y → lastSeg y ≠ x) := by
  simp only [remove_redundancy, Finset.mem_union, Finset.mem_filter]
  constructor
  · rintro (⟨hS, hdot⟩ | ⟨⟨hS, hnd⟩, hno⟩)
    · exact ⟨hS, Or.inl hdot⟩
    · refine ⟨hS, Or.inr ?_⟩
      intro y hy hdy heq
      exact hno ⟨y, ⟨⟨hy, hdy⟩, heq⟩⟩
  · rintro ⟨hS, hdot | hall⟩
    · exact Or.inl ⟨hS, hdot⟩
    · by_cases hd : '.' ∈ x
      · exact Or.inl ⟨hS, hd⟩
      · refine Or.inr ⟨⟨hS, hd⟩, ?_⟩
        rintro ⟨so, ⟨hsoS, hsod⟩, heq⟩
        exact hall so hsoS hsod heq

/-- An object produced by `extract_objects` never has a reserved keyword as
its final dot-segment (the loop filters such candidates out). -/
theorem mem_extract_objects_not_blocked {sql_text x : List Char}
    (hx : x ∈ extract_objects sql_text) : lastSeg x ∉ BLOCK_KEYWORDS := by
  rw [extract_objects, foldl_addCandidate_eq] at hx
  simp only [Finset.empty_union, List.mem_toFinset, List.mem_filter,
    Bool.not_eq_eq_eq_not, Bool.not_true, decide_eq_false_iff_not] at hx
  exact hx.2

/-- The lexicographic comparison is total. -/
theorem lexLeB_total : ∀ a b : List Char, lexLeB a b = true ∨ lexLeB b a = true
  | [], _ => Or.inl rfl
  | _ :: _, [] => Or.inr rfl
  | x :: xs, y :: ys => by
    by_cases h : x = y
    · subst h
      rcases lexLeB_total xs ys with h1 | h1
      · exact Or.inl (by simpa [lexLeB] using h1)
      · exact Or.inr (by simpa [lexLeB] using h1)
    · rcases lt_or_gt_of_ne h with hlt | hgt
      · exact Or.inl (by simp [lexLeB, h, hlt])
      · exact Or.inr (by simp [lexLeB, Ne.symm h, hgt])

/-- The lexicographic comparison is transitive. -/
theorem lexLeB_trans : ∀ (a b c : List Char),
    lexLeB a b = true → lexLeB b c = true → lexLeB a c = true
  | [], _, _, _, _ => rfl
  | _ :: _, [], _, hab, _ => by simp [lexLeB] at hab
  | _ :: _, _ :: _, [], _, hbc => by simp [lexLeB] at hbc
  | x :: xs, y :: ys, z :: zs, hab, hbc => by
    simp only [lexLeB] at hab hbc ⊢
    by_cases hxy : x = y
    · subst hxy
      by_cases hxz : x = z
      · subst hxz
        rw [if_pos rfl] at hab hbc ⊢
        exact lexLeB_trans xs ys zs hab hbc
      · rw [if_pos rfl] at hab
        rw [if_neg hxz] at hbc ⊢
        exact hbc
    · by_cases hyz : y = z
      · subst hyz
        rw [if_neg hxy] at hab ⊢
        exact hab
      · rw [if_neg hxy] at hab
        rw [if_neg hyz] at hbc
        have h1 : x < y := of_decide_eq_true hab
        have h2 : y < z := of_decide_eq_true hbc
        have h3 : x < z := lt_trans h1 h2
        rw [if_neg (ne_of_lt h3)]
        exact decide_eq_true h3

instance instIsTotalProcLe : IsTotal (List Char) procLe :=
  ⟨lexLeB_total⟩

instance instIsTransProcLe : IsTrans (List Char) procLe :=
  ⟨fun a b c => lexLeB_trans a b c⟩

/-- Claim C1, counterexample: the eleven rules do not match independently.
On `"from update x"`, the combined pattern's first match `from update`
consumes the text through `update`, so the UPDATE rule never sees
`update x` and `X` is missing from the extracted set, while the
rule-by-rule reading of the spec also collects `X`. -/
theorem extract_objects_rules_not_independent :
    extract_objects (chars "from update x") = {chars "UPDATE"} ∧
      extract_objects_rulewise (chars "from update x") = {chars "UPDATE", chars "X"} ∧
      extract_objects (chars "from update x") ≠
        extract_objects_rulewise (chars "from update x") := by
  refine ⟨by decide, by decide, by decide⟩

/-- Claim C1, amended: `extract_objects` returns exactly the set of cleaned
captures of the single left-to-right non-overlapping scan of the combined
eleven-alternative pattern (trimmed, semicolon-stripped, upper-cased),
those whose final dot-segment is a reserved keyword discarded, duplicates
collapsing in the set. -/
theorem extract_objects_characterization (sql_text : List Char) :
    extract_objects sql_text =
      (((objectMatches sql_text).map cleanToken).filter
        (fun x => !(decide (lastSeg x ∈ BLOCK_KEYWORDS)))).toFinset := by
  rw [extract_objects, foldl_addCandidate_eq]
  exact Finset.empty_union _

/-- Claim C2: `remove_redundancy` keeps every dotted name of the set, keeps
a dot-free name exactly when no dotted name of the set has it as final
dot-segment, contains nothing else (on the `Finset` model the result is
independent of any iteration order), and on an input containing both
`from sales.orders` and `from orders` the resolved set is `{SALES.ORDERS}`. -/
theorem remove_redundancy_correct :
    (∀ (S : Finset (List Char)) (x : List Char),
        x ∈ remove_redundancy S ↔
          x ∈ S ∧ ('.' ∈ x ∨ ∀ y ∈ S, '.' ∈ y → lastSeg y ≠ x)) ∧
      remove_redundancy (extract_objects
          (chars "select a from sales.orders; select b from orders")) =
        {chars "SALES.ORDERS"} :=
  ⟨fun _ _ => mem_remove_redundancy, by decide⟩

/-- Claim C3: membership in a category is membership in the input set plus
having that category as the first matching prefix of the final dot-segment
(so each input object lies in exactly one category and no category holds an
object that was not in the input), `LP_DW_STAGE` lands in `LP_OBJECTS`
(LP before DW in the fixed order), and the other prefixes and the
catch-all behave as listed. -/
theorem categorize_correct :
    (∀ (S : Finset (List Char)) (x label : List Char),
        x ∈ categorize S label ↔ x ∈ S ∧ catOf x = label) ∧
      (∀ (S : Finset (List Char)) (x : List Char),
        x ∈ S → ∃! label, x ∈ categorize S label) ∧
      catOf (chars "LP_DW_STAGE") = chars "LP_OBJECTS" ∧
      catOf (chars "SCH.DDT_T") = chars "DDT_OBJECTS" ∧
      catOf (chars "E_T") = chars "E_OBJECTS" ∧
      catOf (chars "SA_T") = chars "SA_OBJECTS" ∧
      catOf (chars "DW_T") = chars "DW_OBJECTS" ∧
      catOf (chars "CUSTOMERS") = OTHER_LABEL := by
  refine ⟨?_, ?_, by decide, by decide, by decide, by decide, by decide, by decide⟩
  · intro S x label
    exact Finset.mem_filter
  · intro S x hx
    refine ⟨catOf x, Finset.mem_filter.mpr ⟨hx, rfl⟩, ?_⟩
    intro lab hlab
    exact ((Finset.mem_filter.mp hlab).2).symm

/-- Claim C4: no element of an extracted object set has a final dot-segment
in the reserved-keyword set, the property persists through
`remove_redundancy`, and the malformed fragment `delete from where`
contributes nothing at all. -/
theorem extract_objects_no_reserved :
    (∀ sql_text : List Char,
        (extract_objects sql_text).filter
          (fun x => lastSeg x ∈ BLOCK_KEYWORDS) = ∅) ∧
      (∀ sql_text : List Char,
        (remove_redundancy (extract_objects sql_text)).filter
          (fun x => lastSeg x ∈ BLOCK_KEYWORDS) = ∅) ∧
      extract_objects (chars "delete from where") = ∅ := by
  refine ⟨?_, ?_, by decide⟩
  · intro sql_text
    refine Finset.filter_eq_empty_iff.mpr ?_
    intro x hx
    exact mem_extract_objects_not_blocked hx
  · intro sql_text
    refine Finset.filter_eq_empty_iff.mpr ?_
    intro x hx
    exact mem_extract_objects_not_blocked (mem_remove_redundancy.mp hx).1

/-- Claim C5: `extract_stored_procedures` returns a lexicographically
sorted, duplicate-free sequence whose members are exactly the upper-cased
captures of the create-procedure and invocation patterns, and the
definition-plus-invocation example collapses to the single entry
`SP_LOAD`. -/
theorem extract_stored_procedures_correct :
    (∀ sql_text : List Char,
        List.Sorted procLe (extract_stored_procedures sql_text) ∧
          (extract_stored_procedures sql_text).Nodup ∧
          ∀ x, x ∈ extract_stored_procedures sql_text ↔
            x ∈ (createProcMatches sql_text ++ callProcMatches sql_text).map
              (fun sp => sp.map Char.toUpper)) ∧
      extract_stored_procedures
          (chars "create or replace procedure sp_load as begin select 1; end; exec sp_load") =
        [chars "SP_LOAD"] := by
  refine ⟨fun sql_text => ⟨?_, ?_, ?_⟩, by decide⟩
  · exact List.sorted_insertionSort procLe _
  · exact ((List.perm_insertionSort procLe _).nodup_iff).mpr (List.nodup_dedup _)
  · intro x
    rw [extract_stored_procedures, (List.perm_insertionSort procLe _).mem_iff,
      List.mem_dedup]

/-- Claim C6: `clean_sql` lower-cases what survives comment stripping
(every output character is a `Char.toLower` image), a block comment in the
middle of a FROM clause disappears so the extractor sees `FOO.BAR`, and a
line comment removes the rest of its line so only `Y` is extracted from
the second line. -/
theorem clean_sql_correct :
    (∀ sql_text : List Char, ∀ c ∈ clean_sql sql_text, ∃ d : Char, c = Char.toLower d) ∧
      clean_sql (chars "SELECT * FROM /* comment */ foo.bar") =
        chars "select * from  foo.bar" ∧
      extract_objects (clean_sql (chars "SELECT * FROM /* comment */ foo.bar")) =
        {chars "FOO.BAR"} ∧
      clean_sql (chars "-- select * from x\nselect * from y") =
        chars "\nselect * from y" ∧
      extract_objects (clean_sql (chars "-- select * from x\nselect * from y")) =
        {chars "Y"} := by
  refine ⟨?_, by decide, by decide, by decide, by decide⟩
  intro sql_text c hc
  rcases List.mem_map.mp hc with ⟨d, _, rfl⟩
  exact ⟨d, rfl⟩

/-- Claim C7: every stage is a total function of its input (each call has a
value), and malformed or truncated SQL produces empty results, never an
error: a dangling keyword, a truncated `INSERT INTO`, an unclosed block
comment or a bare `EXECUTE` all extract nothing. -/
theorem pipeline_total_on_malformed :
    (∀ sql_text : List Char,
        ∃ (cleaned : List Char) (objs resolved : Finset (List Char))
          (procs : List (List Char)),
          clean_sql sql_text = cleaned ∧ extract_objects cleaned = objs ∧
            remove_redundancy objs = resolved ∧
              extract_stored_procedures cleaned = procs) ∧
      (∀ (S : Finset (List Char)) (label : List Char),
        ∃ cat : Finset (List Char), categorize S label = cat) ∧
      extract_objects (chars "from") = ∅ ∧
      extract_objects (chars "insert into") = ∅ ∧
      clean_sql (chars "SELECT /* truncated") = chars "select /* truncated" ∧
      extract_objects (chars "select /* truncated") = ∅ ∧
      extract_stored_procedures (chars "execute") = [] := by
  exact ⟨fun s => ⟨_, _, _, _, rfl, rfl, rfl, rfl⟩, fun S lab => ⟨_, rfl⟩,
    by decide, by decide, by decide, by decide, by decide⟩

/-- Claim C8: on the empty input the extractor returns the empty set, every
category of the categorizer is empty, and the procedure list is empty. -/
theorem empty_input_behavior :
    extract_objects (clean_sql []) = ∅ ∧
      (∀ label : List Char, categorize (extract_objects (clean_sql [])) label = ∅) ∧
      extract_stored_procedures (clean_sql []) = [] := by
  refine ⟨by decide, ?_, by decide⟩
  intro label
  have h : extract_objects (clean_sql []) = ∅ := by decide
  rw [h]
  exact Finset.filter_empty _

/-- Claim C9: `remove_redundancy` only ever removes names (its result is a
subset of its input) and is idempotent. -/
theorem remove_redundancy_shrinking_idempotent :
    ∀ S : Finset (List Char),
      remove_redundancy S ⊆ S ∧
        remove_redundancy (remove_redundancy S) = remove_redundancy S := by
  intro S
  constructor
  · intro x hx
    exact (mem_remove_redundancy.mp hx).1
  · ext x
    rw [mem_remove_redundancy]
    constructor
    · exact fun h => h.1
    · intro hx
      refine ⟨hx, ?_⟩
      rcases (mem_remove_redundancy.mp hx).2 with hdot | hall
      · exact Or.inl hdot
      · exact Or.inr fun y hy hdy => hall y (mem_remove_redundancy.mp hy).1 hdy

/-- Claim C10: the create-procedure pattern has no word-boundary anchor, so
`create` matching inside `recreate` still yields `FOO`; the invocation
pattern is anchored, so `exec` inside `reexec` yields nothing. -/
theorem create_procedure_not_anchored :
    extract_stored_procedures (chars "recreate procedure foo") = [chars "FOO"] ∧
      extract_stored_procedures (chars "reexec foo") = [] := by
  refine ⟨by decide, by decide⟩
